import Mathlib

/-!
Shallow embedding of the kajak event-storage engine (`lib/storage.py`,
`lib/chrono.py`, `lib/event.py`).

Python `datetime.date` values are modelled as `(year, month, day)` triples of
naturals, compared lexicographically (which is exactly how `datetime.date`
compares).  Events are `(date, text)` pairs, exactly the tuples that
`TextStorage` keeps in its `data` set; the store itself is a `Finset` of
events, matching Python `set` semantics.  Files and streams are modelled as
strings; reading a text file in Python iterates over its lines after
universal-newline translation, which is modelled explicitly below.
-/

namespace Kajak

/-- A calendar date `(year, month, day)`, as the component triple of a Python
`datetime.date`. -/
abbrev Date := Nat × Nat × Nat

/-- An event, exactly the `(date, text)` tuple stored in `TextStorage.data`. -/
abbrev Event := Date × String

/-- The store contents: `TextStorage.data` is a Python `set` of
`(date, text)` tuples. -/
abbrev Store := Finset Event

/-- A date range `(ldate, rdate)`, both bounds inclusive. -/
abbrev DateRange := Date × Date

/-- Strict comparison of dates: `datetime.date` orders by
`(year, month, day)` lexicographically. -/
def dateLT (a b : Date) : Prop :=
  a.1 < b.1 ∨ (a.1 = b.1 ∧ (a.2.1 < b.2.1 ∨ (a.2.1 = b.2.1 ∧ a.2.2 < b.2.2)))

/-- Non-strict date comparison. -/
def dateLE (a b : Date) : Prop :=
  dateLT a b ∨ a = b

/-- Ordering of events: Python compares the `(date, text)` tuples
lexicographically, strings by code point (as Lean's `String` order does). -/
def eventLE (a b : Event) : Prop :=
  dateLT a.1 b.1 ∨ (a.1 = b.1 ∧ a.2 ≤ b.2)

instance : DecidableRel dateLT := fun _ _ => by unfold dateLT; infer_instance

instance : DecidableRel dateLE := fun _ _ => by unfold dateLE; infer_instance

instance : DecidableRel eventLE := fun _ _ => by unfold eventLE; infer_instance

theorem dateLT_irrefl (a : Date) : ¬ dateLT a a := by
  simp [dateLT]

theorem dateLT_trans {a b c : Date} (h1 : dateLT a b) (h2 : dateLT b c) :
    dateLT a c := by
  obtain ⟨a1, a2, a3⟩ := a
  obtain ⟨b1, b2, b3⟩ := b
  obtain ⟨c1, c2, c3⟩ := c
  simp only [dateLT] at *
  omega

theorem dateLT_total (a b : Date) : dateLT a b ∨ a = b ∨ dateLT b a := by
  obtain ⟨a1, a2, a3⟩ := a
  obtain ⟨b1, b2, b3⟩ := b
  simp only [dateLT, Prod.mk.injEq]
  omega

theorem dateLT_asymm {a b : Date} (h : dateLT a b) : ¬ dateLT b a := by
  intro h2
  exact dateLT_irrefl a (dateLT_trans h h2)

theorem dateLE_refl (a : Date) : dateLE a a := Or.inr rfl

theorem dateLE_trans {a b c : Date} (h1 : dateLE a b) (h2 : dateLE b c) :
    dateLE a c := by
  rcases h1 with h1 | rfl
  · rcases h2 with h2 | rfl
    · exact Or.inl (dateLT_trans h1 h2)
    · exact Or.inl h1
  · exact h2

theorem not_dateLE_iff {a b : Date} : ¬ dateLE a b ↔ dateLT b a := by
  constructor
  · intro h
    rcases dateLT_total a b with h1 | rfl | h1
    · exact absurd (Or.inl h1) h
    · exact absurd (dateLE_refl a) h
    · exact h1
  · intro h hle
    rcases hle with h1 | rfl
    · exact dateLT_asymm h h1
    · exact dateLT_irrefl a h

theorem not_dateLT_iff {a b : Date} : ¬ dateLT a b ↔ dateLE b a := by
  rw [← not_dateLE_iff, not_not]

theorem eventLE_refl (a : Event) : eventLE a a := Or.inr ⟨rfl, le_refl _⟩

theorem eventLE_trans {a b c : Event} (h1 : eventLE a b) (h2 : eventLE b c) :
    eventLE a c := by
  rcases h1 with h1 | ⟨e1, t1⟩
  · rcases h2 with h2 | ⟨e2, t2⟩
    · exact Or.inl (dateLT_trans h1 h2)
    · exact Or.inl (e2 ▸ h1)
  · rcases h2 with h2 | ⟨e2, t2⟩
    · exact Or.inl (e1 ▸ h2)
    · exact Or.inr ⟨e1.trans e2, t1.trans t2⟩

theorem eventLE_antisymm {a b : Event} (h1 : eventLE a b) (h2 : eventLE b a) :
    a = b := by
  rcases h1 with h1 | ⟨e1, t1⟩
  · rcases h2 with h2 | ⟨e2, t2⟩
    · exact absurd h2 (dateLT_asymm h1)
    · exact absurd (e2 ▸ h1) (dateLT_irrefl _)
  · rcases h2 with h2 | ⟨e2, t2⟩
    · exact absurd (e1 ▸ h2) (dateLT_irrefl _)
    · exact Prod.ext e1 (le_antisymm t1 t2)

theorem eventLE_total (a b : Event) : eventLE a b ∨ eventLE b a := by
  rcases dateLT_total a.1 b.1 with h | h | h
  · exact Or.inl (Or.inl h)
  · rcases le_total a.2 b.2 with ht | ht
    · exact Or.inl (Or.inr ⟨h, ht⟩)
    · exact Or.inr (Or.inr ⟨h.symm, ht⟩)
  · exact Or.inr (Or.inl h)

instance : IsTrans Event eventLE := ⟨fun _ _ _ => eventLE_trans⟩

instance : IsAntisymm Event eventLE := ⟨fun _ _ => eventLE_antisymm⟩

instance : IsTotal Event eventLE := ⟨eventLE_total⟩

instance : IsRefl Event eventLE := ⟨eventLE_refl⟩

theorem insertionSort_eq_of_perm {l1 l2 : List Event} (h : l1.Perm l2) :
    l1.insertionSort eventLE = l2.insertionSort eventLE :=
  List.eq_of_perm_of_sorted
    ((List.perm_insertionSort _ l1).trans
      (h.trans (List.perm_insertionSort _ l2).symm))
    (List.sorted_insertionSort _ l1) (List.sorted_insertionSort _ l2)

/-- The ascending `(date, text)` ordering of a multiset of events (the
result of Python `sorted`). -/
def sortedEvents (m : Multiset Event) : List Event :=
  Quot.liftOn m (fun l => l.insertionSort eventLE)
    (fun _ _ h => insertionSort_eq_of_perm h)

theorem sortedEvents_sorted (m : Multiset Event) :
    List.Sorted eventLE (sortedEvents m) :=
  Quot.inductionOn m fun l => List.sorted_insertionSort _ l

theorem mem_sortedEvents {m : Multiset Event} {e : Event} :
    e ∈ sortedEvents m ↔ e ∈ m :=
  Quot.inductionOn m fun l => by
    simp [sortedEvents, List.mem_insertionSort (r := eventLE) (l := l)]

theorem sortedEvents_nodup {m : Multiset Event} (h : m.Nodup) :
    (sortedEvents m).Nodup :=
  Quot.inductionOn m
    (fun l hl => ((List.perm_insertionSort eventLE l).nodup_iff).mpr hl) h

/-- `TextStorage.__iter__`: `iter(sorted(self.data))` — the events of the
store sorted ascending by `(date, text)`. -/
def iterAll (s : Store) : List Event :=
  sortedEvents s.1

theorem mem_iterAll {s : Store} {e : Event} : e ∈ iterAll s ↔ e ∈ s :=
  mem_sortedEvents

theorem iterAll_sorted (s : Store) : List.Sorted eventLE (iterAll s) :=
  sortedEvents_sorted s.1

theorem iterAll_nodup (s : Store) : (iterAll s).Nodup :=
  sortedEvents_nodup s.2

theorem iterAll_toFinset (s : Store) : (iterAll s).toFinset = s := by
  ext e
  simp [List.mem_toFinset, mem_iterAll]

/-- `Storage.iter(date_range)`: walk the sorted event sequence, skipping
events before the lower bound (`continue`) and stopping at the first event
past the upper bound (`break`). -/
def Storage.iter (r : DateRange) : List Event → List Event
  | [] => []
  | e :: rest =>
    if dateLT e.1 r.1 then Storage.iter r rest
    else if dateLT r.2 e.1 then []
    else e :: Storage.iter r rest

/-- `TextStorage` inherits `Storage.iter`, with `self` iterating as the
sorted event list. -/
def TextStorage.iter (s : Store) (r : DateRange) : List Event :=
  Storage.iter r (iterAll s)

/-- `chrono.distant_past = datetime.date(1, 1, 1)`. -/
def distant_past : Date := (1, 1, 1)

/-- `chrono.distant_future = datetime.date(9999, 1, 1)` — note the quirk:
January 1st, not December 31st. -/
def distant_future : Date := (9999, 1, 1)

/-- `chrono.everytime = (distant_past, distant_future)`. -/
def everytime : DateRange := (distant_past, distant_future)

/-- The exceptions `storage.py` raises from store operations:
`NoMatches`, `MultipleMatches(candidates)`, `Duplicate(item)` and the
`ValueError` raised by `push` on a text with surrounding whitespace. -/
inductive StorageError
  | noMatches
  | multipleMatches (candidates : Finset Event)
  | duplicate (item : Event)
  | valueError (msg : String)
deriving DecidableEq

instance {ε α : Type _} [DecidableEq ε] [DecidableEq α] :
    DecidableEq (Except ε α) := fun a b =>
  match a, b with
  | .ok a, .ok b => decidable_of_iff (a = b) (by simp)
  | .error a, .error b => decidable_of_iff (a = b) (by simp)
  | .ok _, .error _ => isFalse (by simp)
  | .error _, .ok _ => isFalse (by simp)

/-- Python's whitespace predicate (CPython's `Py_UNICODE_ISSPACE`): the
set of characters for which `str.isspace()` is true — the ASCII whitespace
`\t \n \x0b \x0c \r` and space, the separators `\x1c`-`\x1f`, NEL `\x85`,
NBSP `\xa0`, and the Unicode space characters.  Both `str.strip()` and the
regex class `\s` (on `str` patterns) use exactly this set. -/
def pyIsSpace (c : Char) : Bool :=
  (0x9 ≤ c.toNat && c.toNat ≤ 0xd) || c.toNat = 0x20 ||
    (0x1c ≤ c.toNat && c.toNat ≤ 0x1f) || c.toNat = 0x85 ||
    c.toNat = 0xa0 || c.toNat = 0x1680 ||
    (0x2000 ≤ c.toNat && c.toNat ≤ 0x200a) || c.toNat = 0x2028 ||
    c.toNat = 0x2029 || c.toNat = 0x202f || c.toNat = 0x205f ||
    c.toNat = 0x3000

/-- Python `str.strip()`: drop whitespace from both ends. -/
def pyStrip (s : String) : String :=
  String.mk
    (((s.toList.dropWhile pyIsSpace).reverse.dropWhile pyIsSpace).reverse)

/-- `TextStorage.push`: reject a text with leading/trailing whitespace
(`text != text.strip()`), raise `Duplicate` on an existing `(date, text)`
pair, otherwise add the tuple to the set.  An error is raised before any
mutation, so an `.error` result leaves the store as it was. -/
def TextStorage.push (s : Store) (date : Date) (text : String) :
    Except StorageError Store :=
  if text ≠ pyStrip text then
    .error (.valueError "leading/trailing space not allowed")
  else if (date, text) ∈ s then
    .error (.duplicate (date, text))
  else
    .ok (insert (date, text) s)

/-- The candidate set computed by `pop` and `reschedule`:
`frozenset((d, t) for d, t in self.iter(date_range) if t == text)`. -/
def TextStorage.candidates (s : Store) (r : DateRange) (text : String) :
    Finset Event :=
  ((TextStorage.iter s r).filter (fun e => e.2 == text)).toFinset

/-- `TextStorage.pop`: if `multi` is set or there is exactly one candidate,
remove all candidates; with zero candidates (and `multi` unset) raise
`NoMatches`; otherwise raise `MultipleMatches(candidates)`. -/
def TextStorage.pop (s : Store) (r : DateRange) (text : String)
    (multi : Bool) : Except StorageError Store :=
  let c := TextStorage.candidates s r text
  if multi = true ∨ c.card = 1 then
    .ok (s \ c)
  else if c.card = 0 then
    .error .noMatches
  else
    .error (.multipleMatches c)

/-- `TextStorage.reschedule`: same resolution policy as `pop`; on success
the candidates are removed and `(new_date, text)` is added once per
candidate (the generator emits the same tuple for every candidate, since
all candidates share the text). -/
def TextStorage.reschedule (s : Store) (r : DateRange) (text : String)
    (new_date : Date) (multi : Bool) : Except StorageError Store :=
  let c := TextStorage.candidates s r text
  if multi = true ∨ c.card = 1 then
    .ok ((s \ c) ∪ c.image (fun e => (new_date, e.2)))
  else if c.card = 0 then
    .error .noMatches
  else
    .error (.multipleMatches c)

/-- `TextStorage.clear`: remove every event the range iteration yields;
never raises. -/
def TextStorage.clear (s : Store) (r : DateRange) : Store :=
  s \ (TextStorage.iter s r).toFinset

/-! ### The text format -/

/-- The decimal digit character for `n % 10`. -/
def digitChar (n : Nat) : Char :=
  Char.ofNat (48 + n % 10)

/-- Zero-padded four-digit decimal, as `'%04d' % n` renders a
`datetime` year (years are always in `1..9999`, hence four digits). -/
def pad4 (n : Nat) : String :=
  String.mk [digitChar (n / 1000), digitChar (n / 100),
             digitChar (n / 10), digitChar n]

/-- Zero-padded two-digit decimal, as `'%02d' % n` renders a month or a day
(both always in `1..31`, hence two digits). -/
def pad2 (n : Nat) : String :=
  String.mk [digitChar (n / 10), digitChar n]

/-- `str(date)`: the ISO form `YYYY-MM-DD`. -/
def formatDate (d : Date) : String :=
  pad4 d.1 ++ "-" ++ pad2 d.2.1 ++ "-" ++ pad2 d.2.2

/-- One line written by `export`: `print(date, text, file=file)` emits
`str(date)`, a space, the text and a newline. -/
def formatLine (e : Event) : String :=
  formatDate e.1 ++ " " ++ e.2 ++ "\n"

/-- Sequential writes to a text stream: the concatenation of the written
pieces. -/
def writeAll : List String → String
  | [] => ""
  | l :: ls => l ++ writeAll ls

/-- `TextStorage.export`: write every event the range iteration yields, one
line each; the stream is modelled as the concatenation of what was
written. -/
def TextStorage.export (s : Store) (r : DateRange) : String :=
  writeAll ((TextStorage.iter s r).map formatLine)

/-- `TextStorage.save` (the contents written to the file): `export` over
`chrono.everytime`, whose upper bound is `9999-01-01`. -/
def TextStorage.save (s : Store) : String :=
  TextStorage.export s everytime

/-- `[0-9]` of the `parse_line` regexp. -/
def isDigitChar (c : Char) : Bool :=
  '0' ≤ c && c ≤ '9'

/-- Numeric value of a digit character, as `int()` on a digit. -/
def digitVal (c : Char) : Nat :=
  c.toNat - 48

/-- The `parse_line` regexp
`(?P<year>[0-9]{4})-(?P<month>[0-9]{2})-(?P<day>[0-9]{2})\s+(?P<text>.*)`,
applied with `.match` (anchored at the start only).  After the date the
greedy `\s+` consumes the maximal whitespace run (at least one character)
and `.*` takes the rest of the line up to, but excluding, a newline.
`None` (no match) is `none`. -/
def parseLineChars (cs : List Char) : Option (Nat × Nat × Nat × String) :=
  match cs with
  | y1 :: y2 :: y3 :: y4 :: h1 :: m1 :: m2 :: h2 :: d1 :: d2 :: rest =>
    if isDigitChar y1 && isDigitChar y2 && isDigitChar y3 && isDigitChar y4 &&
       h1 == '-' && isDigitChar m1 && isDigitChar m2 && h2 == '-' &&
       isDigitChar d1 && isDigitChar d2 then
      match rest with
      | [] => none
      | c :: _ =>
        if pyIsSpace c then
          let afterWs := rest.dropWhile pyIsSpace
          let text := afterWs.takeWhile (fun ch => ch != '\n')
          some (1000 * digitVal y1 + 100 * digitVal y2 + 10 * digitVal y3 +
                  digitVal y4,
                10 * digitVal m1 + digitVal m2,
                10 * digitVal d1 + digitVal d2,
                String.mk text)
        else none
    else none
  | _ => none

/-- Gregorian leap year, as `datetime` implements it. -/
def isLeapYear (y : Nat) : Bool :=
  y % 4 == 0 && (y % 100 != 0 || y % 400 == 0)

/-- Days in a month, as `datetime` implements it. -/
def daysInMonth (y m : Nat) : Nat :=
  if m == 2 then (if isLeapYear y then 29 else 28)
  else if m == 4 || m == 6 || m == 9 || m == 11 then 30
  else 31

/-- The field checks of the `datetime.date` constructor:
`MINYEAR <= year <= MAXYEAR`, `1 <= month <= 12`,
`1 <= day <= days_in_month`. -/
def validDate (d : Date) : Bool :=
  1 ≤ d.1 && d.1 ≤ 9999 && 1 ≤ d.2.1 && d.2.1 ≤ 12 &&
    1 ≤ d.2.2 && d.2.2 ≤ daysInMonth d.1 d.2.1

/-- The Python exceptions that escape `import_`: `AttributeError` from
calling `.groups()` on a failed match, and `ValueError` from the
`datetime.date` constructor on out-of-range fields. -/
inductive PyError
  | attributeError
  | valueError
deriving DecidableEq

/-- Outcome of `import_`: either the final store, or an escaped exception
together with the store contents at the moment it was raised (the lines
already processed stay in `self.data`). -/
inductive ImportResult
  | ok (s : Store)
  | err (e : PyError) (state : Store)
deriving DecidableEq

/-- Process one line of `import_`: parse it, build the date and add the
`(stamp, text)` tuple (`set.add` absorbs duplicates silently). -/
def importLine (s : Store) (line : String) : ImportResult :=
  match parseLineChars line.toList with
  | none => .err .attributeError s
  | some (y, m, d, text) =>
    if validDate (y, m, d) then .ok (insert ((y, m, d), text) s)
    else .err .valueError s

/-- `TextStorage.import_` over the lines of the stream: mutate the store
line by line; the first failing line aborts the loop with the partially
updated store. -/
def TextStorage.import_ (s : Store) : List String → ImportResult
  | [] => .ok s
  | line :: rest =>
    match importLine s line with
    | .ok s2 => TextStorage.import_ s2 rest
    | .err e st => .err e st

/-- Universal-newline translation performed when a Python text-mode file is
read: `\r\n` and lone `\r` both become `\n`. -/
def translateNewlines : List Char → List Char
  | [] => []
  | '\r' :: '\n' :: rest => '\n' :: translateNewlines rest
  | '\r' :: rest => '\n' :: translateNewlines rest
  | c :: rest => c :: translateNewlines rest

/-- Split a character stream into Python file-iteration lines: each line
keeps its terminating `'\n'`; a final fragment without one is still
yielded. -/
def breakLines : List Char → List (List Char)
  | [] => []
  | c :: rest =>
    if c = '\n' then ['\n'] :: breakLines rest
    else
      match breakLines rest with
      | [] => [[c]]
      | l :: ls => (c :: l) :: ls

/-- The lines `for line in file` yields from a file with the given
contents. -/
def fileLines (content : String) : List String :=
  (breakLines (translateNewlines content.toList)).map String.mk

/-- `TextStorage.__init__` on an existing file with the given contents:
start from an empty set and run `import_` over the file's lines. -/
def loadFromContent (content : String) : ImportResult :=
  TextStorage.import_ ∅ (fileLines content)

/-! ### Order helper lemmas -/

theorem dateLT_dateLE_trans {a b c : Date} (h1 : dateLT a b) (h2 : dateLE b c) :
    dateLT a c := by
  rcases h2 with h2 | rfl
  · exact dateLT_trans h1 h2
  · exact h1

theorem dateLE_dateLT_trans {a b c : Date} (h1 : dateLE a b) (h2 : dateLT b c) :
    dateLT a c := by
  rcases h1 with h1 | rfl
  · exact dateLT_trans h1 h2
  · exact h2

theorem eventLE_dateLE {a b : Event} (h : eventLE a b) : dateLE a.1 b.1 := by
  rcases h with h | ⟨h, _⟩
  · exact Or.inl h
  · exact Or.inr h

/-! ### Iteration lemmas -/

theorem Storage.iter_sublist (r : DateRange) (l : List Event) :
    (Storage.iter r l).Sublist l := by
  induction l with
  | nil => simp [Storage.iter]
  | cons e rest ih =>
    rw [Storage.iter]
    split
    · exact ih.cons e
    · split
      · exact List.nil_sublist _
      · exact ih.cons₂ e

theorem Storage.iter_sorted {r : DateRange} {l : List Event}
    (h : List.Sorted eventLE l) : List.Sorted eventLE (Storage.iter r l) :=
  h.sublist (Storage.iter_sublist r l)

/-- On a list sorted by `(date, text)`, `Storage.iter` yields exactly the
members whose date lies inside the (inclusive) range: the `continue` can
only skip events below the lower bound and the `break` only fires once
every remaining event is above the upper bound. -/
theorem Storage.mem_iter {r : DateRange} {l : List Event}
    (hs : List.Sorted eventLE l) {e : Event} :
    e ∈ Storage.iter r l ↔ e ∈ l ∧ dateLE r.1 e.1 ∧ dateLE e.1 r.2 := by
  induction l with
  | nil => simp [Storage.iter]
  | cons a rest ih =>
    rw [List.sorted_cons] at hs
    obtain ⟨ha, hrest⟩ := hs
    rw [Storage.iter]
    split
    · rename_i hlow
      rw [ih hrest]
      constructor
      · rintro ⟨he, hb⟩
        exact ⟨List.mem_cons_of_mem a he, hb⟩
      · rintro ⟨he, hb⟩
        rcases List.mem_cons.mp he with rfl | he
        · exact absurd hb.1 (not_dateLE_iff.mpr hlow)
        · exact ⟨he, hb⟩
    · split
      · rename_i hhigh
        simp only [List.not_mem_nil, false_iff, not_and]
        intro he _
        rcases List.mem_cons.mp he with rfl | he
        · exact fun hb => not_dateLE_iff.mpr hhigh hb
        · intro hb
          exact not_dateLE_iff.mpr
            (dateLT_dateLE_trans hhigh (eventLE_dateLE (ha e he))) hb
      · rename_i hlow hhigh
        rw [List.mem_cons, ih hrest]
        constructor
        · rintro (rfl | ⟨he, hb⟩)
          · exact ⟨List.mem_cons_self _ _,
              not_dateLT_iff.mp hlow, not_dateLT_iff.mp hhigh⟩
          · exact ⟨List.mem_cons_of_mem a he, hb⟩
        · rintro ⟨he, hb⟩
          rcases List.mem_cons.mp he with rfl | he
          · exact Or.inl rfl
          · exact Or.inr ⟨he, hb⟩

theorem mem_TextStorage_iter {s : Store} {r : DateRange} {e : Event} :
    e ∈ TextStorage.iter s r ↔ e ∈ s ∧ dateLE r.1 e.1 ∧ dateLE e.1 r.2 := by
  rw [TextStorage.iter, Storage.mem_iter (iterAll_sorted s), mem_iterAll]

theorem TextStorage_iter_sorted (s : Store) (r : DateRange) :
    List.Sorted eventLE (TextStorage.iter s r) :=
  Storage.iter_sorted (iterAll_sorted s)

theorem mem_candidates {s : Store} {r : DateRange} {text : String}
    {e : Event} :
    e ∈ TextStorage.candidates s r text ↔
      (e ∈ s ∧ dateLE r.1 e.1 ∧ dateLE e.1 r.2) ∧ e.2 = text := by
  rw [TextStorage.candidates, List.mem_toFinset, List.mem_filter,
    mem_TextStorage_iter]
  simp

theorem candidates_subset (s : Store) (r : DateRange) (text : String) :
    TextStorage.candidates s r text ⊆ s := fun _ he =>
  (mem_candidates.mp he).1.1

theorem candidates_text {s : Store} {r : DateRange} {text : String}
    {e : Event} (he : e ∈ TextStorage.candidates s r text) : e.2 = text :=
  (mem_candidates.mp he).2

theorem candidates_image {s : Store} {r : DateRange} {text : String}
    (nd : Date) (h : TextStorage.candidates s r text ≠ ∅) :
    (TextStorage.candidates s r text).image (fun e => (nd, e.2)) =
      {(nd, text)} := by
  obtain ⟨e0, he0⟩ := Finset.nonempty_iff_ne_empty.mpr h
  ext x
  simp only [Finset.mem_image, Finset.mem_singleton]
  constructor
  · rintro ⟨e, he, rfl⟩
    rw [candidates_text he]
  · rintro rfl
    exact ⟨e0, he0, by rw [candidates_text he0]⟩

/-! ### Push reachability -/

/-- The stores reachable from an empty store by a sequence of `push` calls.
A failed `push` raises before mutating `self.data`, so the sequence only
advances on successful pushes. -/
inductive PushReachable : Store → Prop
  | empty : PushReachable ∅
  | step {s s2 : Store} {d : Date} {t : String} : PushReachable s →
      TextStorage.push s d t = .ok s2 → PushReachable s2

theorem push_ok_iff {s s2 : Store} {d : Date} {t : String} :
    TextStorage.push s d t = .ok s2 ↔
      t = pyStrip t ∧ (d, t) ∉ s ∧ s2 = insert (d, t) s := by
  rw [TextStorage.push]
  by_cases h1 : t = pyStrip t
  · rw [if_neg (fun hc => hc h1)]
    by_cases h2 : (d, t) ∈ s
    · rw [if_pos h2]
      simp [h2]
    · rw [if_neg h2]
      constructor
      · intro h
        injection h with h
        exact ⟨h1, h2, h.symm⟩
      · rintro ⟨_, _, rfl⟩
        rfl
  · rw [if_pos h1]
    simp [h1]

/-- Every event in a push-reachable store has a `strip`-clean text: `push`
only admits texts equal to their own `strip()`. -/
theorem PushReachable.stripped {s : Store} (h : PushReachable s) :
    ∀ e ∈ s, e.2 = pyStrip e.2 := by
  induction h with
  | empty => simp
  | step _ hpush ih =>
    obtain ⟨ht, _, rfl⟩ := push_ok_iff.mp hpush
    intro e he
    rcases Finset.mem_insert.mp he with rfl | he
    · exact ht
    · exact ih e he

/-! ### Import lemmas -/

/-- The event one line contributes when `import_` processes it
successfully: the line parses and its date fields are in range. -/
def parseEvent (line : String) : Option Event :=
  match parseLineChars line.toList with
  | none => none
  | some (y, m, d, text) =>
    if validDate (y, m, d) then some ((y, m, d), text) else none

theorem importLine_of_parseEvent {line : String} {e : Event}
    (h : parseEvent line = some e) (s : Store) :
    importLine s line = .ok (insert e s) := by
  rw [parseEvent] at h
  split at h
  · exact Option.noConfusion h
  · rename_i y m d text heq
    split at h
    · rename_i hv
      injection h with h
      subst h
      simp only [importLine, heq]
      rw [if_pos hv]
    · exact Option.noConfusion h

theorem importLine_of_no_parse {line : String}
    (h : parseLineChars line.toList = none) (s : Store) :
    importLine s line = .err .attributeError s := by
  rw [importLine, h]

theorem import_ok_of_all_parse (lines : List String) :
    ∀ s : Store, (∀ l ∈ lines, parseEvent l ≠ none) →
      TextStorage.import_ s lines =
        .ok (s ∪ (lines.filterMap parseEvent).toFinset) := by
  induction lines with
  | nil =>
    intro s _
    simp [TextStorage.import_]
  | cons l rest ih =>
    intro s h
    obtain ⟨e, he⟩ := Option.ne_none_iff_exists.mp
      (h l (List.mem_cons_self l rest))
    rw [TextStorage.import_, importLine_of_parseEvent he.symm s]
    dsimp only
    rw [ih (insert e s) (fun l2 hl2 => h l2 (List.mem_cons_of_mem _ hl2)),
      List.filterMap_cons, ← he, List.toFinset_cons]
    congr 1
    ext x
    simp only [Finset.mem_union, Finset.mem_insert]
    tauto

theorem import_err_of_bad_line (pre : List String) (bad : String)
    (rest : List String) (hbad : parseLineChars bad.toList = none) :
    ∀ s : Store, (∀ l ∈ pre, parseEvent l ≠ none) →
      TextStorage.import_ s (pre ++ bad :: rest) =
        .err .attributeError (s ∪ (pre.filterMap parseEvent).toFinset) := by
  induction pre with
  | nil =>
    intro s _
    rw [List.nil_append, TextStorage.import_, importLine_of_no_parse hbad]
    simp
  | cons l pre2 ih =>
    intro s h
    obtain ⟨e, he⟩ := Option.ne_none_iff_exists.mp
      (h l (List.mem_cons_self l pre2))
    rw [List.cons_append, TextStorage.import_,
      importLine_of_parseEvent he.symm s]
    dsimp only
    rw [ih (insert e s) (fun l2 hl2 => h l2 (List.mem_cons_of_mem _ hl2)),
      List.filterMap_cons, ← he, List.toFinset_cons]
    congr 1
    ext x
    simp only [Finset.mem_union, Finset.mem_insert]
    tauto

/-! ### Round-trip lemmas -/

/-- The events whose line survives the save/load round trip: a valid date
not beyond `distant_future` (the upper bound of `everytime`, so the event
is exported at all), and a text without CR/LF whose first character is not
whitespace (so the line parses back to the same text). -/
def savableEvent (e : Event) : Bool :=
  validDate e.1 && decide (dateLE e.1 distant_future) &&
    e.2.toList.all (fun c => c != '\n' && c != '\r') &&
    pyIsSpace (e.2.toList.head?.getD 'a') = false

theorem digitChar_props (n : Nat) :
    isDigitChar (digitChar n) = true ∧ digitVal (digitChar n) = n % 10 ∧
    digitChar n ≠ '\n' ∧ digitChar n ≠ '\r' := by
  rw [digitChar]
  have h : n % 10 < 10 := Nat.mod_lt _ (by omega)
  set k := n % 10 with hk
  interval_cases k <;> exact ⟨by decide, by decide, by decide, by decide⟩

theorem isDigitChar_digitChar (n : Nat) : isDigitChar (digitChar n) = true :=
  (digitChar_props n).1

theorem takeWhile_until_lf {t : List Char}
    (h : ∀ c ∈ t, (c != '\n') = true) :
    (t ++ ['\n']).takeWhile (fun ch => ch != '\n') = t := by
  induction t with
  | nil => rfl
  | cons c t2 ih =>
    rw [List.cons_append, List.takeWhile_cons]
    simp only [h c (List.mem_cons_self c t2), if_true]
    rw [ih (fun c2 hc2 => h c2 (List.mem_cons_of_mem c hc2))]

/-- The text part the regexp recovers from a written line: the space
`print` adds is eaten by `\s+` (together with the final newline when the
text is empty, or the leading whitespace of the text were it to have any),
and `.*` then reads up to the newline. -/
theorem dropWhile_takeWhile_line {t : List Char}
    (hhead : pyIsSpace (t.head?.getD 'a') = false)
    (hlf : ∀ c ∈ t, (c != '\n') = true) :
    ((' ' :: (t ++ ['\n'])).dropWhile pyIsSpace).takeWhile
      (fun ch => ch != '\n') = t := by
  rw [List.dropWhile_cons, if_pos (show pyIsSpace ' ' = true by decide)]
  cases t with
  | nil => rfl
  | cons c0 t0 =>
    have hc0 : pyIsSpace c0 = false := hhead
    rw [List.cons_append, List.dropWhile_cons, hc0]
    simp only [Bool.false_eq_true, if_false]
    rw [← List.cons_append]
    exact takeWhile_until_lf hlf

theorem formatLine_toList (e : Event) :
    (formatLine e).toList =
      digitChar (e.1.1 / 1000) :: digitChar (e.1.1 / 100) ::
      digitChar (e.1.1 / 10) :: digitChar e.1.1 ::
      '-' :: digitChar (e.1.2.1 / 10) :: digitChar e.1.2.1 ::
      '-' :: digitChar (e.1.2.2 / 10) :: digitChar e.1.2.2 ::
      ' ' :: (e.2.toList ++ ['\n']) := by
  rw [formatLine, formatDate]
  simp only [String.toList, String.data_append, pad4, pad2]
  rfl

/-- The written line of a savable event parses back to its own fields. -/
theorem parse_formatLine {e : Event} (hs : savableEvent e = true) :
    parseLineChars (formatLine e).toList =
      some (e.1.1, e.1.2.1, e.1.2.2, e.2) := by
  simp only [savableEvent, Bool.and_eq_true, decide_eq_true_eq,
    List.all_eq_true] at hs
  obtain ⟨⟨⟨hv, _⟩, htext⟩, hhead⟩ := hs
  have hvp := hv
  simp only [validDate, Bool.and_eq_true, decide_eq_true_eq] at hvp
  obtain ⟨⟨⟨⟨⟨hy1, hy2⟩, hm1⟩, hm2⟩, hd1⟩, hd2⟩ := hvp
  have h31 : daysInMonth e.1.1 e.1.2.1 ≤ 31 := by
    rw [daysInMonth]
    split
    · split <;> omega
    · split <;> omega
  rw [formatLine_toList, parseLineChars]
  rw [if_pos (by simp [isDigitChar_digitChar])]
  rw [if_pos (show pyIsSpace ' ' = true by decide)]
  have htake := dropWhile_takeWhile_line hhead
    (fun c hc => (htext c hc).1)
  simp only [htake]
  have hy4 : 1000 * digitVal (digitChar (e.1.1 / 1000)) +
      100 * digitVal (digitChar (e.1.1 / 100)) +
      10 * digitVal (digitChar (e.1.1 / 10)) +
      digitVal (digitChar e.1.1) = e.1.1 := by
    rw [(digitChar_props (e.1.1 / 1000)).2.1,
      (digitChar_props (e.1.1 / 100)).2.1,
      (digitChar_props (e.1.1 / 10)).2.1, (digitChar_props e.1.1).2.1]
    omega
  have hm3 : 10 * digitVal (digitChar (e.1.2.1 / 10)) +
      digitVal (digitChar e.1.2.1) = e.1.2.1 := by
    rw [(digitChar_props (e.1.2.1 / 10)).2.1, (digitChar_props e.1.2.1).2.1]
    omega
  have hd3 : 10 * digitVal (digitChar (e.1.2.2 / 10)) +
      digitVal (digitChar e.1.2.2) = e.1.2.2 := by
    rw [(digitChar_props (e.1.2.2 / 10)).2.1, (digitChar_props e.1.2.2).2.1]
    omega
  rw [hy4, hm3, hd3]
  rfl

theorem writeAll_toList (L : List String) :
    (writeAll L).toList = (L.map String.toList).flatten := by
  induction L with
  | nil => rfl
  | cons l ls ih =>
    show (l ++ writeAll ls).data = _
    rw [String.data_append]
    show l.data ++ (writeAll ls).toList = _
    rw [ih]
    rfl

/-- A written line decomposes as a newline-free, CR-free body followed by
the single final newline. -/
theorem formatLine_shape {e : Event} (hs : savableEvent e = true) :
    ∃ b, (formatLine e).toList = b ++ ['\n'] ∧ '\n' ∉ b ∧ '\r' ∉ b := by
  simp only [savableEvent, Bool.and_eq_true, List.all_eq_true] at hs
  obtain ⟨⟨_, htext⟩, _⟩ := hs
  refine ⟨digitChar (e.1.1 / 1000) :: digitChar (e.1.1 / 100) ::
    digitChar (e.1.1 / 10) :: digitChar e.1.1 ::
    '-' :: digitChar (e.1.2.1 / 10) :: digitChar e.1.2.1 ::
    '-' :: digitChar (e.1.2.2 / 10) :: digitChar e.1.2.2 ::
    ' ' :: e.2.toList, by rw [formatLine_toList]; rfl, ?_, ?_⟩
  · intro hmem
    simp only [List.mem_cons] at hmem
    rcases hmem with h|h|h|h|h|h|h|h|h|h|h|h
    · exact (digitChar_props _).2.2.1 h.symm
    · exact (digitChar_props _).2.2.1 h.symm
    · exact (digitChar_props _).2.2.1 h.symm
    · exact (digitChar_props _).2.2.1 h.symm
    · exact absurd h (by decide)
    · exact (digitChar_props _).2.2.1 h.symm
    · exact (digitChar_props _).2.2.1 h.symm
    · exact absurd h (by decide)
    · exact (digitChar_props _).2.2.1 h.symm
    · exact (digitChar_props _).2.2.1 h.symm
    · exact absurd h (by decide)
    · have := (htext _ h).1
      simp at this
  · intro hmem
    simp only [List.mem_cons] at hmem
    rcases hmem with h|h|h|h|h|h|h|h|h|h|h|h
    · exact (digitChar_props _).2.2.2 h.symm
    · exact (digitChar_props _).2.2.2 h.symm
    · exact (digitChar_props _).2.2.2 h.symm
    · exact (digitChar_props _).2.2.2 h.symm
    · exact absurd h (by decide)
    · exact (digitChar_props _).2.2.2 h.symm
    · exact (digitChar_props _).2.2.2 h.symm
    · exact absurd h (by decide)
    · exact (digitChar_props _).2.2.2 h.symm
    · exact (digitChar_props _).2.2.2 h.symm
    · exact absurd h (by decide)
    · have := (htext _ h).2
      simp at this

theorem translateNewlines_no_cr :
    ∀ (cs : List Char), '\r' ∉ cs → translateNewlines cs = cs
  | [], _ => rfl
  | c :: rest, h => by
    have hc : c ≠ '\r' := fun hh => h (hh ▸ List.mem_cons_self c rest)
    have hr : '\r' ∉ rest := fun hh => h (List.mem_cons_of_mem c hh)
    rw [translateNewlines.eq_def]
    split
    · simp_all
    · simp_all
    · simp_all
    · rename_i heq
      injection heq with h1 h2
      subst h1
      subst h2
      exact congrArg (c :: ·) (translateNewlines_no_cr rest hr)

theorem breakLines_line {b : List Char} (hb : '\n' ∉ b) (rest : List Char) :
    breakLines (b ++ '\n' :: rest) = (b ++ ['\n']) :: breakLines rest := by
  induction b with
  | nil =>
    rw [List.nil_append, breakLines, if_pos rfl]
    rfl
  | cons c b2 ih =>
    have hc : ¬ (c = '\n') := fun hh => hb (hh ▸ List.mem_cons_self c b2)
    have hb2 : '\n' ∉ b2 := fun hh => hb (List.mem_cons_of_mem c hh)
    rw [List.cons_append, breakLines, if_neg hc, ih hb2]
    rfl

theorem breakLines_flatten : ∀ (L : List (List Char)),
    (∀ l ∈ L, ∃ b, l = b ++ ['\n'] ∧ '\n' ∉ b) →
    breakLines L.flatten = L := by
  intro L
  induction L with
  | nil => intro _; rfl
  | cons l L2 ih =>
    intro h
    obtain ⟨b, hl, hb⟩ := h l (List.mem_cons_self l L2)
    rw [List.flatten_cons, hl, List.append_assoc, List.singleton_append,
      breakLines_line hb, ih (fun l2 hl2 => h l2 (List.mem_cons_of_mem l hl2))]

/-- Reading back a stream of well-formed written lines yields exactly those
lines. -/
theorem fileLines_writeAll {l : List Event}
    (h : ∀ e ∈ l, savableEvent e = true) :
    fileLines (writeAll (l.map formatLine)) = l.map formatLine := by
  rw [fileLines, writeAll_toList, List.map_map]
  have hnocr : '\r' ∉ ((l.map (String.toList ∘ formatLine)).flatten) := by
    intro hmem
    obtain ⟨piece, hpiece, hcmem⟩ := List.mem_flatten.mp hmem
    obtain ⟨e, he, rfl⟩ := List.mem_map.mp hpiece
    obtain ⟨b, hsplit, _, hbcr⟩ := formatLine_shape (h e he)
    rw [Function.comp_apply, hsplit] at hcmem
    rcases List.mem_append.mp hcmem with hcb | hcn
    · exact hbcr hcb
    · exact absurd (List.mem_singleton.mp hcn) (by decide)
  rw [translateNewlines_no_cr _ hnocr]
  rw [breakLines_flatten _ (by
    intro piece hpiece
    obtain ⟨e, he, rfl⟩ := List.mem_map.mp hpiece
    obtain ⟨b, hsplit, hbn, _⟩ := formatLine_shape (h e he)
    exact ⟨b, by rw [Function.comp_apply, hsplit], hbn⟩)]
  rw [List.map_map]
  have hid : ∀ e : Event, (String.mk ∘ String.toList ∘ formatLine) e =
      formatLine e := fun e => rfl
  exact List.map_congr_left (fun e _ => hid e)

theorem Storage.iter_of_all_in {r : DateRange} : ∀ {l : List Event},
    (∀ e ∈ l, dateLE r.1 e.1 ∧ dateLE e.1 r.2) → Storage.iter r l = l := by
  intro l
  induction l with
  | nil => intro _; rfl
  | cons e rest ih =>
    intro h
    obtain ⟨h1, h2⟩ := h e (List.mem_cons_self e rest)
    rw [Storage.iter, if_neg (not_dateLT_iff.mpr h1),
      if_neg (not_dateLT_iff.mpr h2),
      ih (fun e2 he2 => h e2 (List.mem_cons_of_mem e he2))]

theorem validDate_dateLE_past {d : Date} (h : validDate d = true) :
    dateLE distant_past d := by
  obtain ⟨y, m, dd⟩ := d
  simp only [validDate, Bool.and_eq_true, decide_eq_true_eq] at h
  simp only [dateLE, dateLT, distant_past, Prod.mk.injEq]
  omega

theorem parseEvent_formatLine {e : Event} (hs : savableEvent e = true) :
    parseEvent (formatLine e) = some e := by
  have hv : validDate e.1 = true := by
    simp only [savableEvent, Bool.and_eq_true] at hs
    exact hs.1.1.1
  rw [parseEvent, parse_formatLine hs]
  dsimp only
  rw [if_pos (show validDate (e.1.1, e.1.2.1, e.1.2.2) = true from hv)]

theorem filterMap_parse_format {l : List Event}
    (h : ∀ e ∈ l, savableEvent e = true) :
    (l.map formatLine).filterMap parseEvent = l := by
  induction l with
  | nil => rfl
  | cons e rest ih =>
    rw [List.map_cons,
      List.filterMap_cons_some
        (parseEvent_formatLine (h e (List.mem_cons_self e rest))),
      ih (fun e2 he2 => h e2 (List.mem_cons_of_mem e he2))]

/-! ### The claims -/

/-- C1: for every store state (hence after any sequence of
push/pop/reschedule/clear, each of which again yields a store state) and
every range `r`, iterating with `r` yields exactly the events `e` with
`r.lower <= e.date <= r.upper`, sorted ascending by `(date, text)`. -/
theorem C1_range_filter_and_ordering (s : Store) (r : DateRange) :
    (∀ e : Event, e ∈ TextStorage.iter s r ↔
      e ∈ s ∧ dateLE r.1 e.1 ∧ dateLE e.1 r.2) ∧
    List.Sorted eventLE (TextStorage.iter s r) :=
  ⟨fun _ => mem_TextStorage_iter, TextStorage_iter_sorted s r⟩

/-- C2: after any sequence of `push` calls the store lists no event twice
(no two coexisting events share their `(date, text)`), and pushing a pair
that is already present fails with `Duplicate` carrying the colliding
event — the raise happens before the `add`, so the store is unchanged. -/
theorem C2_uniqueness_and_duplicate (s : Store) (e : Event)
    (hs : PushReachable s) (he : e ∈ s) :
    (iterAll s).Nodup ∧
    TextStorage.push s e.1 e.2 = .error (.duplicate e) := by
  refine ⟨iterAll_nodup s, ?_⟩
  rw [TextStorage.push, if_neg (fun hc => hc (hs.stripped e he)),
    if_pos (show (e.1, e.2) ∈ s from by rwa [Prod.mk.eta])]

/-- Witness for C2 at the store `{(2020-01-01, "x")}` reached by one push. -/
theorem C2_uniqueness_and_duplicate_witness :
    (iterAll ({(((2020 : Nat), (1 : Nat), (1 : Nat)), "x")} : Store)).Nodup ∧
    TextStorage.push {(((2020 : Nat), (1 : Nat), (1 : Nat)), "x")}
        ((2020 : Nat), (1 : Nat), (1 : Nat)) "x" =
      .error (.duplicate (((2020 : Nat), (1 : Nat), (1 : Nat)), "x")) :=
  C2_uniqueness_and_duplicate {(((2020 : Nat), (1 : Nat), (1 : Nat)), "x")}
    (((2020 : Nat), (1 : Nat), (1 : Nat)), "x")
    (PushReachable.step PushReachable.empty
      (show TextStorage.push ∅ ((2020 : Nat), (1 : Nat), (1 : Nat)) "x" =
        .ok {(((2020 : Nat), (1 : Nat), (1 : Nat)), "x")} by decide))
    (by decide)

/-- C4: with more than one candidate, `pop` and `reschedule` under
`multi=false` fail with `MultipleMatches` carrying exactly the candidate
set (the raise precedes any mutation, so nothing is removed or updated);
under `multi=true`, `pop` removes all candidates and `reschedule` replaces
all of them — never a proper non-empty subset. -/
theorem C4_ambiguity_resolution (s : Store) (r : DateRange) (text : String)
    (nd : Date) (h : 1 < (TextStorage.candidates s r text).card) :
    TextStorage.pop s r text false =
      .error (.multipleMatches (TextStorage.candidates s r text)) ∧
    TextStorage.reschedule s r text nd false =
      .error (.multipleMatches (TextStorage.candidates s r text)) ∧
    TextStorage.pop s r text true =
      .ok (s \ TextStorage.candidates s r text) ∧
    TextStorage.reschedule s r text nd true =
      .ok ((s \ TextStorage.candidates s r text) ∪ {(nd, text)}) := by
  have hcard : ¬ ((false = true) ∨
      (TextStorage.candidates s r text).card = 1) := by
    rintro (hc | hc)
    · exact Bool.false_ne_true hc
    · omega
  have hzero : ¬ (TextStorage.candidates s r text).card = 0 := by omega
  have hne : TextStorage.candidates s r text ≠ ∅ := by
    intro hc
    rw [hc] at h
    simp at h
  refine ⟨?_, ?_, ?_, ?_⟩
  · rw [TextStorage.pop, if_neg hcard, if_neg hzero]
  · rw [TextStorage.reschedule, if_neg hcard, if_neg hzero]
  · rw [TextStorage.pop, if_pos (Or.inl rfl)]
  · rw [TextStorage.reschedule, if_pos (Or.inl rfl), candidates_image nd hne]

/-- Witness for C4 at the spec's own example
`{(2020-01-01, "x"), (2020-01-02, "x")}`. -/
theorem C4_ambiguity_resolution_witness :
    1 < (TextStorage.candidates
        {(((2020 : Nat), (1 : Nat), (1 : Nat)), "x"),
         (((2020 : Nat), (1 : Nat), (2 : Nat)), "x")} everytime "x").card ∧
    (TextStorage.pop
        {(((2020 : Nat), (1 : Nat), (1 : Nat)), "x"),
         (((2020 : Nat), (1 : Nat), (2 : Nat)), "x")} everytime "x" false =
      .error (.multipleMatches (TextStorage.candidates
        {(((2020 : Nat), (1 : Nat), (1 : Nat)), "x"),
         (((2020 : Nat), (1 : Nat), (2 : Nat)), "x")} everytime "x")) ∧
    TextStorage.reschedule
        {(((2020 : Nat), (1 : Nat), (1 : Nat)), "x"),
         (((2020 : Nat), (1 : Nat), (2 : Nat)), "x")} everytime "x"
        ((2020 : Nat), (2 : Nat), (1 : Nat)) false =
      .error (.multipleMatches (TextStorage.candidates
        {(((2020 : Nat), (1 : Nat), (1 : Nat)), "x"),
         (((2020 : Nat), (1 : Nat), (2 : Nat)), "x")} everytime "x")) ∧
    TextStorage.pop
        {(((2020 : Nat), (1 : Nat), (1 : Nat)), "x"),
         (((2020 : Nat), (1 : Nat), (2 : Nat)), "x")} everytime "x" true =
      .ok ({(((2020 : Nat), (1 : Nat), (1 : Nat)), "x"),
            (((2020 : Nat), (1 : Nat), (2 : Nat)), "x")} \
        TextStorage.candidates
          {(((2020 : Nat), (1 : Nat), (1 : Nat)), "x"),
           (((2020 : Nat), (1 : Nat), (2 : Nat)), "x")} everytime "x") ∧
    TextStorage.reschedule
        {(((2020 : Nat), (1 : Nat), (1 : Nat)), "x"),
         (((2020 : Nat), (1 : Nat), (2 : Nat)), "x")} everytime "x"
        ((2020 : Nat), (2 : Nat), (1 : Nat)) true =
      .ok (({(((2020 : Nat), (1 : Nat), (1 : Nat)), "x"),
             (((2020 : Nat), (1 : Nat), (2 : Nat)), "x")} \
        TextStorage.candidates
          {(((2020 : Nat), (1 : Nat), (1 : Nat)), "x"),
           (((2020 : Nat), (1 : Nat), (2 : Nat)), "x")} everytime "x") ∪
        {(((2020 : Nat), (2 : Nat), (1 : Nat)), "x")})) :=
  ⟨by decide, C4_ambiguity_resolution _ _ _ _ (by decide)⟩

/-- C5 counterexample: with `multi=true` and an empty candidate set,
`pop` and `reschedule` do NOT fail with `NoMatches` — the
`if multi or len(candidates) == 1` branch is taken and both succeed as
no-ops; the claim's "for every value of the multi flag" is false. -/
theorem C5_counterexample :
    TextStorage.candidates {(((2020 : Nat), (1 : Nat), (1 : Nat)), "y")}
        everytime "x" = ∅ ∧
    TextStorage.pop {(((2020 : Nat), (1 : Nat), (1 : Nat)), "y")}
        everytime "x" true =
      .ok {(((2020 : Nat), (1 : Nat), (1 : Nat)), "y")} ∧
    TextStorage.reschedule {(((2020 : Nat), (1 : Nat), (1 : Nat)), "y")}
        everytime "x" ((2021 : Nat), (1 : Nat), (1 : Nat)) true =
      .ok {(((2020 : Nat), (1 : Nat), (1 : Nat)), "y")} := by
  decide

/-- C5 amended: with an empty candidate set, `pop` and `reschedule` fail
with `NoMatches` when `multi=false` (the raise precedes any mutation, so
the store is unchanged); with `multi=true` they succeed and leave the
store's event set unchanged. -/
theorem C5_no_matches (s : Store) (r : DateRange) (text : String)
    (nd : Date) (h : TextStorage.candidates s r text = ∅) :
    TextStorage.pop s r text false = .error .noMatches ∧
    TextStorage.reschedule s r text nd false = .error .noMatches ∧
    TextStorage.pop s r text true = .ok s ∧
    TextStorage.reschedule s r text nd true = .ok s := by
  have hcard : ¬ ((false = true) ∨
      (TextStorage.candidates s r text).card = 1) := by
    rintro (hc | hc)
    · exact Bool.false_ne_true hc
    · rw [h] at hc
      simp at hc
  refine ⟨?_, ?_, ?_, ?_⟩
  · rw [TextStorage.pop, if_neg hcard, if_pos (by rw [h]; rfl)]
  · rw [TextStorage.reschedule, if_neg hcard, if_pos (by rw [h]; rfl)]
  · rw [TextStorage.pop, if_pos (Or.inl rfl), h, Finset.sdiff_empty]
  · rw [TextStorage.reschedule, if_pos (Or.inl rfl), h, Finset.sdiff_empty,
      Finset.image_empty, Finset.union_empty]

/-- Witness for the amended C5 at a store with no event of text "x". -/
theorem C5_no_matches_witness :
    TextStorage.candidates {(((2020 : Nat), (1 : Nat), (1 : Nat)), "y")}
        everytime "x" = ∅ ∧
    (TextStorage.pop {(((2020 : Nat), (1 : Nat), (1 : Nat)), "y")}
        everytime "x" false = .error .noMatches ∧
    TextStorage.reschedule {(((2020 : Nat), (1 : Nat), (1 : Nat)), "y")}
        everytime "x" ((2021 : Nat), (1 : Nat), (1 : Nat)) false =
      .error .noMatches ∧
    TextStorage.pop {(((2020 : Nat), (1 : Nat), (1 : Nat)), "y")}
        everytime "x" true =
      .ok {(((2020 : Nat), (1 : Nat), (1 : Nat)), "y")} ∧
    TextStorage.reschedule {(((2020 : Nat), (1 : Nat), (1 : Nat)), "y")}
        everytime "x" ((2021 : Nat), (1 : Nat), (1 : Nat)) true =
      .ok {(((2020 : Nat), (1 : Nat), (1 : Nat)), "y")}) :=
  ⟨by decide, C5_no_matches _ _ _ _ (by decide)⟩

/-- C6 counterexample: `push` accepts an empty text and a text with an
embedded line feed — both equal their own `strip()`, and `push` checks
nothing else.  The claim's "fails ... if the text is empty ... or contains
a carriage-return or line-feed character" is false. -/
theorem C6_counterexample :
    TextStorage.push ∅ ((2020 : Nat), (1 : Nat), (1 : Nat)) "" =
      .ok {(((2020 : Nat), (1 : Nat), (1 : Nat)), "")} ∧
    TextStorage.push ∅ ((2020 : Nat), (1 : Nat), (1 : Nat)) "a\nb" =
      .ok {(((2020 : Nat), (1 : Nat), (1 : Nat)), "a\nb")} := by
  decide

/-- C6 amended: `push` fails with a `ValueError` exactly when the text has
leading or trailing whitespace (`text != text.strip()`); any other text —
including the empty text and texts with embedded CR/LF — passes
validation, and is inserted when no duplicate exists.  (The full
empty/CR/LF validation lives in `event._check_string`, which
`TextStorage.push` never calls.) -/
theorem C6_push_validation (s : Store) (d : Date) (t : String) :
    ((∃ msg, TextStorage.push s d t = .error (.valueError msg)) ↔
      t ≠ pyStrip t) ∧
    (t = pyStrip t → (d, t) ∉ s →
      TextStorage.push s d t = .ok (insert (d, t) s)) := by
  constructor
  · constructor
    · rintro ⟨msg, hmsg⟩ ht
      rw [TextStorage.push, if_neg (fun hc => hc ht)] at hmsg
      split at hmsg
      · injection hmsg with h
        exact StorageError.noConfusion h
      · exact Except.noConfusion hmsg
    · intro ht
      exact ⟨"leading/trailing space not allowed",
        by rw [TextStorage.push, if_pos ht]⟩
  · intro ht hd
    rw [TextStorage.push, if_neg (fun hc => hc ht), if_neg hd]

/-- Witness for the amended C6: a text with an embedded line feed is clean
for `strip` and gets inserted. -/
theorem C6_push_validation_witness :
    ("a\nb" = pyStrip "a\nb") ∧
    ((((2020 : Nat), (1 : Nat), (1 : Nat)), "a\nb") ∉ (∅ : Store)) ∧
    TextStorage.push ∅ ((2020 : Nat), (1 : Nat), (1 : Nat)) "a\nb" =
      .ok (insert (((2020 : Nat), (1 : Nat), (1 : Nat)), "a\nb") ∅) :=
  ⟨by decide, by decide,
    (C6_push_validation ∅ ((2020 : Nat), (1 : Nat), (1 : Nat)) "a\nb").2
      (by decide) (by decide)⟩

/-- C8: `clear` is a total operation (it never raises, whatever the number
of matches); afterwards no event inside the range remains, and every event
outside the range is still present, untouched. -/
theorem C8_clear_frame (s : Store) (r : DateRange) (e : Event) :
    e ∈ TextStorage.clear s r ↔
      e ∈ s ∧ ¬ (dateLE r.1 e.1 ∧ dateLE e.1 r.2) := by
  rw [TextStorage.clear, Finset.mem_sdiff, List.mem_toFinset,
    mem_TextStorage_iter]
  constructor
  · rintro ⟨he, hn⟩
    exact ⟨he, fun hb => hn ⟨he, hb⟩⟩
  · rintro ⟨he, hn⟩
    exact ⟨he, fun hb => hn hb.2⟩

/-- C9: a successful `reschedule` (forced by `multi=true` or a singleton
candidate set) removes all candidates and inserts the single event
`(new_date, text)`: it never raises `Duplicate`, and with several
candidates (or a pre-existing `(new_date, text)`) events silently coalesce
— with more than one candidate the store strictly shrinks. -/
theorem C9_reschedule_coalesces (s : Store) (r : DateRange) (text : String)
    (nd : Date) (multi : Bool)
    (hm : multi = true ∨ (TextStorage.candidates s r text).card = 1)
    (hne : TextStorage.candidates s r text ≠ ∅) :
    TextStorage.reschedule s r text nd multi =
      .ok ((s \ TextStorage.candidates s r text) ∪ {(nd, text)}) ∧
    (∀ e, TextStorage.reschedule s r text nd multi ≠
      .error (.duplicate e)) ∧
    (1 < (TextStorage.candidates s r text).card →
      ((s \ TextStorage.candidates s r text) ∪ {(nd, text)}).card <
        s.card) := by
  have hok : TextStorage.reschedule s r text nd multi =
      .ok ((s \ TextStorage.candidates s r text) ∪ {(nd, text)}) := by
    rw [TextStorage.reschedule, if_pos hm, candidates_image nd hne]
  refine ⟨hok, fun e he => by rw [hok] at he; exact Except.noConfusion he, ?_⟩
  intro hlt
  have hsub := candidates_subset s r text
  have hsd : (s \ TextStorage.candidates s r text).card =
      s.card - (TextStorage.candidates s r text).card :=
    Finset.card_sdiff hsub
  have hle := Finset.card_le_card hsub
  have hun := Finset.card_union_le
    (s \ TextStorage.candidates s r text) ({(nd, text)} : Store)
  rw [Finset.card_singleton] at hun
  omega

/-- Witness for C9: rescheduling the two "x" events with `multi=true`
coalesces them into one. -/
theorem C9_reschedule_coalesces_witness :
    ((true : Bool) = true ∨ (TextStorage.candidates
        {(((2020 : Nat), (1 : Nat), (1 : Nat)), "x"),
         (((2020 : Nat), (1 : Nat), (2 : Nat)), "x")} everytime "x").card = 1) ∧
    TextStorage.candidates
        {(((2020 : Nat), (1 : Nat), (1 : Nat)), "x"),
         (((2020 : Nat), (1 : Nat), (2 : Nat)), "x")} everytime "x" ≠ ∅ ∧
    (TextStorage.reschedule
        {(((2020 : Nat), (1 : Nat), (1 : Nat)), "x"),
         (((2020 : Nat), (1 : Nat), (2 : Nat)), "x")} everytime "x"
        ((2021 : Nat), (1 : Nat), (1 : Nat)) true =
      .ok (({(((2020 : Nat), (1 : Nat), (1 : Nat)), "x"),
             (((2020 : Nat), (1 : Nat), (2 : Nat)), "x")} \
        TextStorage.candidates
          {(((2020 : Nat), (1 : Nat), (1 : Nat)), "x"),
           (((2020 : Nat), (1 : Nat), (2 : Nat)), "x")} everytime "x") ∪
        {(((2021 : Nat), (1 : Nat), (1 : Nat)), "x")}) ∧
    (∀ e, TextStorage.reschedule
        {(((2020 : Nat), (1 : Nat), (1 : Nat)), "x"),
         (((2020 : Nat), (1 : Nat), (2 : Nat)), "x")} everytime "x"
        ((2021 : Nat), (1 : Nat), (1 : Nat)) true ≠
      .error (.duplicate e)) ∧
    (1 < (TextStorage.candidates
        {(((2020 : Nat), (1 : Nat), (1 : Nat)), "x"),
         (((2020 : Nat), (1 : Nat), (2 : Nat)), "x")} everytime "x").card →
      (({(((2020 : Nat), (1 : Nat), (1 : Nat)), "x"),
         (((2020 : Nat), (1 : Nat), (2 : Nat)), "x")} \
        TextStorage.candidates
          {(((2020 : Nat), (1 : Nat), (1 : Nat)), "x"),
           (((2020 : Nat), (1 : Nat), (2 : Nat)), "x")} everytime "x") ∪
        {(((2021 : Nat), (1 : Nat), (1 : Nat)), "x")}).card <
      ({(((2020 : Nat), (1 : Nat), (1 : Nat)), "x"),
        (((2020 : Nat), (1 : Nat), (2 : Nat)), "x")} : Store).card)) :=
  ⟨Or.inl rfl, by decide, C9_reschedule_coalesces _ _ _ _ _
    (Or.inl rfl) (by decide)⟩

/-- C7 counterexample: loading a stream whose second line is
`not-a-date foo` does NOT fail with a syntax error carrying source name
and line number — `parse_line` returns `None` and `None.groups()` raises a
bare `AttributeError` — and the event parsed from the first line has
already been added and is retained in the store, so the failure is not
atomic either. -/
theorem C7_counterexample :
    TextStorage.import_ ∅ (fileLines "2020-01-01 a\nnot-a-date foo\n") =
      .err .attributeError {(((2020 : Nat), (1 : Nat), (1 : Nat)), "a")} := by
  decide

/-- C7 amended: on the first line that does not match `parse_line`,
load/import aborts with an `AttributeError` (which carries neither a
source name nor a line number), the remaining lines are not processed,
and the store keeps the original events plus every event parsed from the
lines before the offending one. -/
theorem C7_import_nonatomic_failure (s : Store) (pre : List String)
    (bad : String) (rest : List String)
    (hpre : ∀ l ∈ pre, parseEvent l ≠ none)
    (hbad : parseLineChars bad.toList = none) :
    TextStorage.import_ s (pre ++ bad :: rest) =
      .err .attributeError (s ∪ (pre.filterMap parseEvent).toFinset) :=
  import_err_of_bad_line pre bad rest hbad s hpre

/-- Witness for the amended C7: one good line, then `not-a-date foo`, then
a line that is never reached. -/
theorem C7_import_nonatomic_failure_witness :
    (∀ l ∈ ["2020-01-01 a\n"], parseEvent l ≠ none) ∧
    parseLineChars "not-a-date foo\n".toList = none ∧
    TextStorage.import_ ∅
        (["2020-01-01 a\n"] ++ "not-a-date foo\n" :: ["2021-01-01 b\n"]) =
      .err .attributeError
        (∅ ∪ (["2020-01-01 a\n"].filterMap parseEvent).toFinset) :=
  ⟨by decide, by decide,
    C7_import_nonatomic_failure ∅ ["2020-01-01 a\n"] "not-a-date foo\n"
      ["2021-01-01 b\n"] (by decide) (by decide)⟩

/-- C3 counterexample: the round trip is NOT the identity for every store.
`chrono.everytime` ends at `9999-01-01`, so `save` silently drops an event
dated `9999-06-01` (the file is empty and the reload yields an empty
store); and an event whose text embeds a carriage return — which `push`
accepts — is written as one line that reads back as two, so the reload
crashes with the partially rebuilt store `{(2020-01-01, "a")}`. -/
theorem C3_counterexample :
    TextStorage.save {(((9999 : Nat), (6 : Nat), (1 : Nat)), "x")} = "" ∧
    loadFromContent
        (TextStorage.save {(((9999 : Nat), (6 : Nat), (1 : Nat)), "x")}) =
      .ok ∅ ∧
    ((∅ : Store) ≠ {(((9999 : Nat), (6 : Nat), (1 : Nat)), "x")}) ∧
    TextStorage.push ∅ ((9999 : Nat), (6 : Nat), (1 : Nat)) "x" =
      .ok {(((9999 : Nat), (6 : Nat), (1 : Nat)), "x")} ∧
    loadFromContent
        (TextStorage.save {(((2020 : Nat), (1 : Nat), (1 : Nat)), "a\rb")}) =
      .err .attributeError {(((2020 : Nat), (1 : Nat), (1 : Nat)), "a")} := by
  decide

/-- C3 amended: `save()` followed by a fresh load from the written file
reproduces the event set, provided every event is savable: its date is a
valid calendar date not after `9999-01-01` (the upper bound of the
`everytime` range used by `save`), and its text contains no CR/LF and does
not start with whitespace. -/
theorem C3_save_load_roundtrip (s : Store)
    (h : ∀ e ∈ s, savableEvent e = true) :
    loadFromContent (TextStorage.save s) = .ok s := by
  have hall : ∀ e ∈ iterAll s, savableEvent e = true := fun e he =>
    h e (mem_iterAll.mp he)
  have hiter : TextStorage.iter s everytime = iterAll s := by
    rw [TextStorage.iter]
    apply Storage.iter_of_all_in
    intro e he
    have hse := hall e he
    simp only [savableEvent, Bool.and_eq_true, decide_eq_true_eq] at hse
    exact ⟨validDate_dateLE_past hse.1.1.1, hse.1.1.2⟩
  rw [loadFromContent, TextStorage.save, TextStorage.export, hiter,
    fileLines_writeAll hall,
    import_ok_of_all_parse _ ∅ (by
      intro l hl
      obtain ⟨e, he, rfl⟩ := List.mem_map.mp hl
      rw [parseEvent_formatLine (hall e he)]
      exact Option.noConfusion),
    filterMap_parse_format hall, iterAll_toFinset, Finset.empty_union]

/-- Witness for the amended C3 at the spec's scenario store
`{(2020-05-01, "buy milk")}`. -/
theorem C3_save_load_roundtrip_witness :
    (∀ e ∈ ({(((2020 : Nat), (5 : Nat), (1 : Nat)), "buy milk")} : Store),
      savableEvent e = true) ∧
    loadFromContent (TextStorage.save
        {(((2020 : Nat), (5 : Nat), (1 : Nat)), "buy milk")}) =
      .ok {(((2020 : Nat), (5 : Nat), (1 : Nat)), "buy milk")} :=
  ⟨by decide, C3_save_load_roundtrip
    {(((2020 : Nat), (5 : Nat), (1 : Nat)), "buy milk")} (by decide)⟩

/-- C10: `import_` adds parsed lines with `set.add`, which absorbs
duplicates silently — it never consults `push`, so no `Duplicate` can be
raised (the import error type has no duplicate case at all): when every
line parses, the result is simply the union of the original store with
the set of parsed events, so a line equal to an existing event, or a line
repeated in the stream, leaves exactly one copy. -/
theorem C10_import_absorbs_duplicates (s : Store) (lines : List String)
    (h : ∀ l ∈ lines, parseEvent l ≠ none) :
    TextStorage.import_ s lines =
      .ok (s ∪ (lines.filterMap parseEvent).toFinset) :=
  import_ok_of_all_parse lines s h

/-- Witness for C10: the stream repeats a line that moreover duplicates an
event already in the store; the import succeeds and one copy remains. -/
theorem C10_import_absorbs_duplicates_witness :
    (∀ l ∈ ["2020-01-01 a\n", "2020-01-01 a\n"], parseEvent l ≠ none) ∧
    TextStorage.import_ {(((2020 : Nat), (1 : Nat), (1 : Nat)), "a")}
        ["2020-01-01 a\n", "2020-01-01 a\n"] =
      .ok ({(((2020 : Nat), (1 : Nat), (1 : Nat)), "a")} ∪
        (["2020-01-01 a\n", "2020-01-01 a\n"].filterMap parseEvent).toFinset) :=
  ⟨by decide,
    C10_import_absorbs_duplicates {(((2020 : Nat), (1 : Nat), (1 : Nat)), "a")}
      ["2020-01-01 a\n", "2020-01-01 a\n"] (by decide)⟩

end Kajak
